import Mathlib

/-!
Verification of the ufoLib2 persistence and glyph data-model subsystem.

Shallow embedding of:
  * `DataStore` (src/ufoLib2/objects/misc.py) — the lazy per-entry store with
    its `_NOT_LOADED` sentinel, pending-deletion set, and in-place vs save-as
    write protocol;
  * `Glyph` unicode and margin logic (src/ufoLib2/objects/glyph.py);
  * `Font.write` / `Font.save` orchestration (src/ufoLib2/objects/font.py);
  * `DeepComponent.drawPoints` (src/ufoLib2/objects/deepComponent.py).

External collaborators (the UFOReader/UFOWriter container adapters, the
filesystem, and the point-pen protocol) are modelled as parameters, following
the interface boundary drawn in the specification.
-/

namespace UfoLib2

/-! ## Python dict as an ordered association list

Python dicts preserve insertion order; updating an existing key keeps its
position, deleting removes it, inserting a fresh key appends at the end. -/

/-- Lookup in an ordered association list (first matching key wins; keys are
unique in every store we build). -/
def dictGet {β : Type} (d : List (String × β)) (k : String) : Option β :=
  match d with
  | [] => none
  | (k1, v1) :: rest => if k1 = k then some v1 else dictGet rest k

/-- `d[k] = v` on a Python dict: update in place when the key exists,
append otherwise. -/
def dictSet {β : Type} : List (String × β) → String → β → List (String × β)
  | [], k, v => [(k, v)]
  | (k1, v1) :: rest, k, v =>
      if k1 = k then (k1, v) :: rest else (k1, v1) :: dictSet rest k v

/-- `del d[k]` on a Python dict (the caller checks presence; keys are unique
in every store we build, so removing every matching entry is the removal of
the one entry). -/
def dictDelete {β : Type} : List (String × β) → String → List (String × β)
  | [], _ => []
  | (k1, v1) :: rest, k =>
      if k1 = k then dictDelete rest k else (k1, v1) :: dictDelete rest k

/-! ## DataStore (src/ufoLib2/objects/misc.py)

A store entry is either the `_NOT_LOADED` sentinel or a loaded payload.
`ρ` is the opaque reader handle type, `α` the payload type; the externally
supplied adapter functions `listdir`/`readf`/`writef`/`deletef` are passed in
as parameters.  Fallible Python operations (KeyError on a missing key,
AttributeError when no reader is retained) return `Option`. -/

/-- Entry state: the `_NOT_LOADED` sentinel versus a loaded payload. -/
inductive Entry (α : Type) where
  | notLoaded : Entry α
  | loaded (v : α) : Entry α
deriving DecidableEq

/-- In-memory state of a `DataStore`: the ordered `_data` dict, the
`_scheduledForDeletion` set (as a duplicate-free list), and the optionally
retained reader (`self.reader`, present only after a lazy read). -/
structure DataStore (ρ α : Type) where
  data : List (String × Entry α)
  scheduledForDeletion : List String
  reader : Option ρ
deriving DecidableEq

/-- `DataStore.read(reader, lazy)`: enumerate the keys from the backing
container and populate every key as not-loaded (lazy) or eagerly read
(non-lazy); retain the reader only in lazy mode. -/
def DataStore.read {ρ α : Type} (listdir : ρ → List String) (readf : ρ → String → α)
    (r : ρ) (lazy : Bool) : DataStore ρ α :=
  { data := (listdir r).foldl
      (fun d k => dictSet d k (if lazy then Entry.notLoaded else Entry.loaded (readf r k))) [],
    scheduledForDeletion := [],
    reader := if lazy then some r else none }

/-- Instrumentation: the keys passed to the external `readf` while
`DataStore.read` populates the store (none in lazy mode, every enumerated key
in eager mode). -/
def readTrace {ρ : Type} (listdir : ρ → List String) (r : ρ) (lazy : Bool) : List String :=
  if lazy then [] else listdir r

/-- `__getitem__`: a missing key is a KeyError (`none`); a not-loaded entry is
materialized through the retained reader (AttributeError, i.e. `none`, when no
reader was retained) and cached.  The third component records the keys passed
to the external `readf` during the access. -/
def DataStore.getItem {ρ α : Type} (readf : ρ → String → α) (s : DataStore ρ α)
    (k : String) : Option (α × DataStore ρ α × List String) :=
  match dictGet s.data k with
  | none => none
  | some (Entry.loaded v) => some (v, s, [])
  | some Entry.notLoaded =>
      match s.reader with
      | none => none
      | some r =>
          some (readf r k, { s with data := dictSet s.data k (Entry.loaded (readf r k)) }, [k])

/-- `__setitem__`: store the payload as loaded and discard any pending
deletion of the key. -/
def DataStore.setItem {ρ α : Type} (s : DataStore ρ α) (k : String) (v : α) :
    DataStore ρ α :=
  { s with data := dictSet s.data k (Entry.loaded v),
           scheduledForDeletion := s.scheduledForDeletion.filter (fun k1 => k1 ≠ k) }

/-- `__delitem__`: KeyError (`none`) when the key is absent; otherwise remove
it from the data dict and record it as scheduled for deletion. -/
def DataStore.delItem {ρ α : Type} (s : DataStore ρ α) (k : String) :
    Option (DataStore ρ α) :=
  match dictGet s.data k with
  | none => none
  | some _ => some
      { s with data := dictDelete s.data k,
               scheduledForDeletion :=
                 if k ∈ s.scheduledForDeletion then s.scheduledForDeletion
                 else k :: s.scheduledForDeletion }

/-- One call to the external writer adapter during `DataStore.write`. -/
inductive WriteOp (α : Type) where
  | del (k : String) : WriteOp α
  | put (k : String) (v : α) : WriteOp α
deriving DecidableEq

/-- The `for fileName, data in self.items()` loop of `DataStore.write`:
iterate the dict in order, materializing each not-loaded entry through the
retained reader (AttributeError, i.e. `none`, when an entry is not loaded and
no reader is retained), and emit a `writef` call per entry.  Returns the
emitted calls and the dict after the caching done by `__getitem__`. -/
def writeItems {ρ α : Type} (readf : ρ → String → α) (rd : Option ρ) :
    List (String × Entry α) → Option (List (WriteOp α) × List (String × Entry α))
  | [] => some ([], [])
  | (k, Entry.loaded v) :: rest =>
      match writeItems readf rd rest with
      | none => none
      | some (ops, d2) => some (WriteOp.put k v :: ops, (k, Entry.loaded v) :: d2)
  | (k, Entry.notLoaded) :: rest =>
      match rd with
      | none => none
      | some r =>
          match writeItems readf rd rest with
          | none => none
          | some (ops, d2) =>
              some (WriteOp.put k (readf r k) :: ops, (k, Entry.loaded (readf r k)) :: d2)

/-- `DataStore.write(writer, saveAs)`: when writing in place (`saveAs` false)
first emit a `deletef` call for every key scheduled for deletion; then write
every entry (pulling not-loaded ones through the retained reader); finally
clear the pending-deletion set and, on a save-as, drop the retained reader
(the `delattr(self, "reader")` step). -/
def DataStore.write {ρ α : Type} (s : DataStore ρ α) (readf : ρ → String → α)
    (saveAs : Bool) : Option (List (WriteOp α) × DataStore ρ α) :=
  match writeItems readf s.reader s.data with
  | none => none
  | some (ops, d2) =>
      some ((if saveAs then [] else s.scheduledForDeletion.map WriteOp.del) ++ ops,
            { data := d2, scheduledForDeletion := [],
              reader := if saveAs then none else s.reader })

/-- A mutation of a `DataStore` through its mapping interface. -/
inductive StoreOp (α : Type) where
  | setOp (k : String) (v : α) : StoreOp α
  | delOp (k : String) : StoreOp α

/-- Apply one mapping operation (`delOp` fails on a missing key, as
`__delitem__` raises KeyError). -/
def DataStore.applyOp {ρ α : Type} (s : DataStore ρ α) : StoreOp α → Option (DataStore ρ α)
  | StoreOp.setOp k v => some (s.setItem k v)
  | StoreOp.delOp k => s.delItem k

/-- Apply a sequence of mapping operations, stopping at the first failure. -/
def DataStore.applyOps {ρ α : Type} (s : DataStore ρ α) :
    List (StoreOp α) → Option (DataStore ρ α)
  | [] => some s
  | op :: ops =>
      match s.applyOp op with
      | none => none
      | some s2 => s2.applyOps ops

/-- The mutual-exclusion invariant between the data dict and the
pending-deletion set: no key scheduled for deletion is present in the dict. -/
def Consistent {ρ α : Type} (s : DataStore ρ α) : Prop :=
  ∀ k ∈ s.scheduledForDeletion, dictGet s.data k = none

instance {ρ α : Type} [DecidableEq α] (s : DataStore ρ α) : Decidable (Consistent s) :=
  inferInstanceAs (Decidable (∀ k ∈ s.scheduledForDeletion, dictGet s.data k = none))

/-! ## Glyph geometry and unicode logic (src/ufoLib2/objects/glyph.py)

Coordinates, widths and margins live in an arbitrary linear ordered
commutative ring `R` (the source computes with Python numbers).  The claims
under verification concern contour-only glyphs, so the embedded `Glyph`
carries its width, its unicode list and its contours; `getBounds` for such
glyphs is the min/max bounding box of the contour points. -/

/-- A point of a contour. -/
structure GPoint (R : Type) where
  x : R
  y : R
deriving DecidableEq

/-- A contour, as the list of its points. -/
structure Contour (R : Type) where
  points : List (GPoint R)
deriving DecidableEq

/-- The `(xMin, yMin, xMax, yMax)` bounding-box record returned by the bounds
query. -/
structure BoundingBox (R : Type) where
  xMin : R
  yMin : R
  xMax : R
  yMax : R
deriving DecidableEq

/-- The glyph fields involved in the claims: advance width, the assigned
unicode code points, and the contours. -/
structure Glyph (R : Type) where
  width : R
  unicodes : List Int
  contours : List (Contour R)
deriving DecidableEq

/-- `Contour.move(delta)`: translate every point. -/
def Contour.move {R : Type} [LinearOrderedCommRing R] (c : Contour R) (dx dy : R) :
    Contour R :=
  { points := c.points.map (fun p => { x := p.x + dx, y := p.y + dy }) }

/-- `Glyph.move(delta)`: translate all contours (for a contour-only glyph;
the source additionally translates components and anchors). -/
def Glyph.move {R : Type} [LinearOrderedCommRing R] (g : Glyph R) (dx dy : R) :
    Glyph R :=
  { g with contours := g.contours.map (fun c => c.move dx dy) }

/-- All the points of a glyph, contour by contour. -/
def Glyph.allPoints {R : Type} (g : Glyph R) : List (GPoint R) :=
  g.contours.foldr (fun c acc => c.points ++ acc) []

/-- Grow a bounding box to contain one more point. -/
def expandBounds {R : Type} [LinearOrderedCommRing R] (bb : BoundingBox R)
    (p : GPoint R) : BoundingBox R :=
  { xMin := min bb.xMin p.x, yMin := min bb.yMin p.y,
    xMax := max bb.xMax p.x, yMax := max bb.yMax p.y }

/-- Modelled from the spec: the bounds query consumed by the margin methods
(`getBounds` lives in `ufoLib2.objects.misc`, outside the provided sources;
the spec defines it as the bounding box of the glyph's geometry, `None` for an
empty glyph).  For a contour-only glyph this is the min/max box of all contour
points. -/
def Glyph.getBounds {R : Type} [LinearOrderedCommRing R] (g : Glyph R) :
    Option (BoundingBox R) :=
  match g.allPoints with
  | [] => none
  | p :: ps =>
      some (ps.foldl expandBounds { xMin := p.x, yMin := p.y, xMax := p.x, yMax := p.y })

/-- `Glyph.getLeftMargin`: the `xMin` of the bounds, when they exist. -/
def Glyph.getLeftMargin {R : Type} [LinearOrderedCommRing R] (g : Glyph R) : Option R :=
  match g.getBounds with
  | none => none
  | some bounds => some bounds.xMin

/-- `Glyph.setLeftMargin(value)`: compute `diff = value - bounds.xMin`; when
nonzero, add it to the width and move the whole glyph by `(diff, 0)`. -/
def Glyph.setLeftMargin {R : Type} [LinearOrderedCommRing R] (g : Glyph R)
    (value : R) : Glyph R :=
  match g.getBounds with
  | none => g
  | some bounds =>
      let diff := value - bounds.xMin
      if diff ≠ 0 then { g.move diff 0 with width := g.width + diff } else g

/-- `Glyph.getRightMargin`: `width - bounds.xMax`, when bounds exist. -/
def Glyph.getRightMargin {R : Type} [LinearOrderedCommRing R] (g : Glyph R) : Option R :=
  match g.getBounds with
  | none => none
  | some bounds => some (g.width - bounds.xMax)

/-- The `unicode` property getter: the first assigned code point, or `none`
when the list is empty. -/
def Glyph.unicode {R : Type} (g : Glyph R) : Option Int :=
  g.unicodes.head?

/-- The `unicode` property setter: `None` clears the list; otherwise, when the
list is nonempty, return unchanged if the value is already first, else remove
its first occurrence (Python `list.remove`, ValueError ignored) and insert it
at the front; when the list is empty, append the value. -/
def Glyph.setUnicode {R : Type} (g : Glyph R) (value : Option Int) : Glyph R :=
  match value with
  | none => { g with unicodes := [] }
  | some v =>
      match g.unicodes with
      | [] => { g with unicodes := [v] }
      | u :: rest =>
          if u = v then g
          else { g with unicodes := v :: (u :: rest).erase v }

/-! ## Layers and Font.write (src/ufoLib2/objects/font.py)

`LayerSet` and `Layer` live in modules outside the provided sources; the
fields used by `Font.write` are modelled from the spec. -/

/-- The reserved name of the default layer (`ufoLib2.constants`). -/
def DEFAULT_LAYER_NAME : String := "public.default"

/-- Modelled from the spec: a layer as seen by `Font.write` — only its unique
name is consulted (`layer.py` is outside the provided sources). -/
structure Layer where
  name : String
deriving DecidableEq

/-- Modelled from the spec: the ordered layer collection with its
distinguished default layer (`layerSet.py` is outside the provided sources;
the spec states the default layer is an O(1) attribute of the set). -/
structure LayerSet where
  layers : List Layer
  defaultLayer : Layer
deriving DecidableEq

/-- `LayerSet.layerOrder`: the layer names in order. -/
def LayerSet.layerOrder (ls : LayerSet) : List String :=
  ls.layers.map Layer.name

/-- The Font fields involved in the write/save claims: the layer set and the
remembered origin path (`self._path`). -/
structure Font where
  layers : LayerSet
  path : Option String
deriving DecidableEq

/-- Python exception kinds raised by the embedded code. -/
inductive PyErr where
  | typeError : PyErr
  | assertionError : PyErr
deriving DecidableEq

/-- `Font.write(writer)`: the default-layer-name precondition enforced before
anything is written — when the default layer's name differs from the reserved
name, assert that no layer in the order uses the reserved name.  The
subsequent delegation to the external writer and the sub-stores is abstracted
as success. -/
def Font.write (f : Font) : Except PyErr Unit :=
  if f.layers.defaultLayer.name ≠ DEFAULT_LAYER_NAME then
    if DEFAULT_LAYER_NAME ∈ f.layers.layerOrder then Except.error PyErr.assertionError
    else Except.ok ()
  else Except.ok ()

/-! ## Font.save (src/ufoLib2/objects/font.py)

The filesystem is a map from path to entry content (`β`); the whole
`UFOWriter`/`Font.write` step inside the `try` block is an external
collaborator summarized by its outcome: success with the fully written
content, or failure carrying whatever partial content was left at the write
target (`E` is the exception type). -/

/-- Errors raised by `Font.save` itself, plus propagated write failures. -/
inductive SaveErr (E : Type) where
  | notImplementedErr : SaveErr E
  | alreadyExistsErr : SaveErr E
  | pathRequiredErr : SaveErr E
  | writeFailed (e : E) : SaveErr E
deriving DecidableEq

/-- Result of a `Font.save` call: the outcome, the filesystem afterwards, the
font afterwards (`self._path` may be updated), whether a temporary staging
directory was created, whether it still exists on exit, whether the writer was
bound to a staged path rather than the destination, and whether any I/O
happened at all. -/
structure SaveResult (β E : Type) where
  result : Except (SaveErr E) Unit
  disk : String → Option β
  font : Font
  tmpCreated : Bool
  tmpLive : Bool
  wroteStaged : Bool
  ioHappened : Bool

/-- Replace the entry at one path of the filesystem. -/
def updateDisk {β : Type} (disk : String → Option β) (p : String) (c : Option β) :
    String → Option β :=
  fun q => if q = p then c else disk q

/-- `Font.save(path, formatVersion, structure, overwrite, validate)`:
1. reject any `formatVersion` other than 3 before doing anything;
2. with an explicit path that already exists: fail unless `overwrite`, else
   stage the write into a fresh temporary directory, and only on success
   remove the destination and move the staged result into place, always
   closing the temporary directory (`finally`);
3. with an explicit fresh path, or no path (reusing the remembered path,
   which must exist), write directly at the target, so a failure can leave
   partial content there;
4. `self._path` is updated only when no exception escaped. -/
def Font.save {β E : Type} (f : Font) (disk : String → Option β)
    (writeStep : Except (E × Option β) β) (path0 : Option String)
    (formatVersion : Int) (overwrite : Bool) : SaveResult β E :=
  if formatVersion ≠ 3 then
    { result := Except.error SaveErr.notImplementedErr, disk := disk, font := f,
      tmpCreated := false, tmpLive := false, wroteStaged := false, ioHappened := false }
  else
    match path0 with
    | some p =>
      if (disk p).isSome then
        if overwrite then
          match writeStep with
          | Except.error (e, _junk) =>
              { result := Except.error (SaveErr.writeFailed e), disk := disk, font := f,
                tmpCreated := true, tmpLive := false, wroteStaged := true,
                ioHappened := true }
          | Except.ok c =>
              { result := Except.ok (), disk := updateDisk disk p (some c),
                font := { f with path := some p },
                tmpCreated := true, tmpLive := false, wroteStaged := true,
                ioHappened := true }
        else
          { result := Except.error SaveErr.alreadyExistsErr, disk := disk, font := f,
            tmpCreated := false, tmpLive := false, wroteStaged := false,
            ioHappened := false }
      else
        match writeStep with
        | Except.error (e, junk) =>
            { result := Except.error (SaveErr.writeFailed e),
              disk := updateDisk disk p junk, font := f,
              tmpCreated := false, tmpLive := false, wroteStaged := false,
              ioHappened := true }
        | Except.ok c =>
            { result := Except.ok (), disk := updateDisk disk p (some c),
              font := { f with path := some p },
              tmpCreated := false, tmpLive := false, wroteStaged := false,
              ioHappened := true }
    | none =>
      match f.path with
      | none =>
          { result := Except.error SaveErr.pathRequiredErr, disk := disk, font := f,
            tmpCreated := false, tmpLive := false, wroteStaged := false,
            ioHappened := false }
      | some p =>
          match writeStep with
          | Except.error (e, junk) =>
              { result := Except.error (SaveErr.writeFailed e),
                disk := updateDisk disk p junk, font := f,
                tmpCreated := false, tmpLive := false, wroteStaged := false,
                ioHappened := true }
          | Except.ok c =>
              { result := Except.ok (), disk := updateDisk disk p (some c), font := f,
                tmpCreated := false, tmpLive := false, wroteStaged := false,
                ioHappened := true }

/-! ## DeepComponent.drawPoints (src/ufoLib2/objects/deepComponent.py)

The point pen is an external collaborator; the behavior the source's
`try/except TypeError` targets is a pen whose `addDeepComponent` does not
accept the `identifier` keyword argument, in which case Python raises
TypeError.  `τ` and `κ` are the (opaque) transformation and coordinate
types. -/

/-- The point-pen collaborator, characterized by whether its
`addDeepComponent` method accepts the `identifier` keyword argument. -/
structure PointPen where
  acceptsIdentifierKwarg : Bool

/-- An observable event at the point pen: a successful `addDeepComponent`
invocation (recording whether and with what value the `identifier` keyword
was passed), or an issued `UserWarning`. -/
inductive PenEvent (τ κ : Type) where
  | addDeepComponent (baseGlyph : String) (transformation : τ) (coord : κ)
      (identifierKwarg : Option (Option String)) : PenEvent τ κ
  | userWarning : PenEvent τ κ
deriving DecidableEq

/-- The deep component record: base glyph name, 5-parameter transformation,
coordinate vector, optional identifier. -/
structure DeepComponent (τ κ : Type) where
  baseGlyph : String
  transformation : τ
  coord : κ
  identifier : Option String
deriving DecidableEq

/-- One invocation of the pen's `addDeepComponent`: passing the `identifier`
keyword to a pen that does not accept it raises TypeError; otherwise the call
succeeds and is recorded. -/
def PointPen.addDeepComponentCall {τ κ : Type} (pen : PointPen) (base : String)
    (tr : τ) (co : κ) (idKwarg : Option (Option String)) :
    Except PyErr (List (PenEvent τ κ)) :=
  match idKwarg with
  | some ident =>
      if pen.acceptsIdentifierKwarg then
        Except.ok [PenEvent.addDeepComponent base tr co (some ident)]
      else Except.error PyErr.typeError
  | none => Except.ok [PenEvent.addDeepComponent base tr co none]

/-- `DeepComponent.drawPoints(pointPen)`: call `addDeepComponent` with the
`identifier` keyword; on TypeError, retry without it and issue a UserWarning;
any other error propagates. -/
def DeepComponent.drawPoints {τ κ : Type} (dc : DeepComponent τ κ) (pen : PointPen) :
    Except PyErr (List (PenEvent τ κ)) :=
  match pen.addDeepComponentCall dc.baseGlyph dc.transformation dc.coord
      (some dc.identifier) with
  | Except.ok evs => Except.ok evs
  | Except.error PyErr.typeError =>
      match pen.addDeepComponentCall dc.baseGlyph dc.transformation dc.coord none with
      | Except.ok evs => Except.ok (evs ++ [PenEvent.userWarning])
      | Except.error e => Except.error e
  | Except.error e => Except.error e

/-! ## Auxiliary notions for the statements, and concrete witness inputs -/

/-- Translate a point by `(dx, dy)`. -/
def shiftP {R : Type} [LinearOrderedCommRing R] (dx dy : R) (p : GPoint R) : GPoint R :=
  { x := p.x + dx, y := p.y + dy }

/-- Translate a bounding box by `(dx, dy)`. -/
def shiftBB {R : Type} [LinearOrderedCommRing R] (dx dy : R) (bb : BoundingBox R) :
    BoundingBox R :=
  { xMin := bb.xMin + dx, yMin := bb.yMin + dy,
    xMax := bb.xMax + dx, yMax := bb.yMax + dy }

/-- A reader adapter over a trivial handle, reading every key as `0`. -/
def readf0 : Unit → String → Nat := fun _ _ => 0

/-- A listing adapter enumerating two keys. -/
def listdir0 : Unit → List String := fun _ => ["a", "b"]

/-- A reader adapter whose payload identifies the key (its length). -/
def readf1 : Unit → String → Nat := fun _ s => s.length

/-- A store holding one loaded entry. -/
def s2w : DataStore Unit Nat :=
  { data := [("a", Entry.loaded 1)], scheduledForDeletion := [], reader := none }

/-- `s2w` after deleting key `a`. -/
def s2wDel : DataStore Unit Nat :=
  { data := [], scheduledForDeletion := ["a"], reader := none }

/-- `s2wDel` after re-setting key `a` to `2` (also the store left by the
subsequent in-place write). -/
def s2wSet : DataStore Unit Nat :=
  { data := [("a", Entry.loaded 2)], scheduledForDeletion := [], reader := none }

/-- A lazily read store: one untouched (not-loaded) entry, one loaded entry,
with the reader retained. -/
def s3w : DataStore Unit Nat :=
  { data := [("a", Entry.notLoaded), ("b", Entry.loaded 5)],
    scheduledForDeletion := [], reader := some () }

/-- `s3w` after a save-as write: everything loaded, reader dropped. -/
def s3wOut : DataStore Unit Nat :=
  { data := [("a", Entry.loaded 0), ("b", Entry.loaded 5)],
    scheduledForDeletion := [], reader := none }

/-- A store with one pending deletion and one loaded entry. -/
def s9w : DataStore Unit Nat :=
  { data := [("b", Entry.loaded 5)], scheduledForDeletion := ["a"], reader := none }

/-- `s9w` after a save-as write: pending deletions discarded. -/
def s9wOut : DataStore Unit Nat :=
  { data := [("b", Entry.loaded 5)], scheduledForDeletion := [], reader := none }

/-- A glyph with unicodes `[3, 5, 7]`. -/
def g357 : Glyph Int := { width := 0, unicodes := [3, 5, 7], contours := [] }

/-- A contour-only glyph with bounds `xMin = 10, yMin = 0, xMax = 90,
yMax = 50` and width `100`. -/
def g0 : Glyph Int :=
  { width := 100, unicodes := [],
    contours := [{ points := [{ x := 10, y := 0 }, { x := 90, y := 50 }] }] }

/-- The bounds of `g0`. -/
def bb0 : BoundingBox Int := { xMin := 10, yMin := 0, xMax := 90, yMax := 50 }

/-- A font whose default layer bears the reserved name. -/
def f0 : Font :=
  { layers := { layers := [{ name := DEFAULT_LAYER_NAME }],
                defaultLayer := { name := DEFAULT_LAYER_NAME } },
    path := none }

/-- A font whose default layer is named `foreground` while another layer
bears the reserved default-layer name. -/
def f7 : Font :=
  { layers := { layers := [{ name := "foreground" }, { name := DEFAULT_LAYER_NAME }],
                defaultLayer := { name := "foreground" } },
    path := none }

/-- A one-entry filesystem. -/
def disk0 : String → Option Nat := fun q => if q = "x.ufo" then some 7 else none

/-- A write step that fails, leaving nothing usable behind. -/
def failStep : Except (Unit × Option Nat) Nat := Except.error ((), none)

/-- A write step that succeeds with content `9`. -/
def okStep : Except (Unit × Option Nat) Nat := Except.ok 9

/-! ## Dictionary lemmas -/

lemma dictGet_dictSet_self {β : Type} (d : List (String × β)) (k : String) (v : β) :
    dictGet (dictSet d k v) k = some v := by
  induction d with
  | nil => simp [dictSet, dictGet]
  | cons hd tl ih =>
      obtain ⟨k1, v1⟩ := hd
      by_cases h : k1 = k
      · subst h; simp [dictSet, dictGet]
      · simp [dictSet, dictGet, h, ih]

lemma dictGet_dictSet_ne {β : Type} (d : List (String × β)) (k k2 : String) (v : β)
    (h : k2 ≠ k) : dictGet (dictSet d k v) k2 = dictGet d k2 := by
  induction d with
  | nil =>
      have h2 : ¬k = k2 := fun hh => h hh.symm
      simp [dictSet, dictGet, h2]
  | cons hd tl ih =>
      obtain ⟨k1, v1⟩ := hd
      by_cases h1 : k1 = k
      · subst h1
        have h2 : k1 ≠ k2 := fun hh => h hh.symm
        simp [dictSet, dictGet, h2]
      · simp [dictSet, dictGet, h1, ih]

lemma dictGet_dictDelete {β : Type} (d : List (String × β)) (k k2 : String) :
    dictGet (dictDelete d k) k2 = if k2 = k then none else dictGet d k2 := by
  induction d with
  | nil => simp [dictDelete, dictGet]
  | cons hd tl ih =>
      obtain ⟨k1, v1⟩ := hd
      by_cases h1 : k1 = k
      · subst h1
        by_cases h2 : k1 = k2
        · subst h2; simp [dictDelete, dictGet, ih]
        · simp [dictDelete, dictGet, h2, ih]
      · by_cases h2 : k1 = k2
        · subst h2
          simp [dictDelete, dictGet, h1]
        · simp [dictDelete, dictGet, h1, h2, ih]

lemma dictGet_mem {β : Type} {d : List (String × β)} {k : String} {v : β}
    (h : dictGet d k = some v) : (k, v) ∈ d := by
  induction d with
  | nil => simp [dictGet] at h
  | cons hd tl ih =>
      obtain ⟨k1, v1⟩ := hd
      by_cases h1 : k1 = k
      · subst h1
        simp [dictGet] at h
        subst h
        exact List.mem_cons_self _ _
      · simp [dictGet, h1] at h
        exact List.mem_cons_of_mem _ (ih h)

lemma dictGet_foldl_dictSet {β : Type} (f : String → β) :
    ∀ (ks : List String) (d : List (String × β)) (k : String),
      dictGet (ks.foldl (fun d1 k1 => dictSet d1 k1 (f k1)) d) k =
        if k ∈ ks then some (f k) else dictGet d k := by
  intro ks
  induction ks with
  | nil => intro d k; simp
  | cons k1 rest ih =>
      intro d k
      simp only [List.foldl_cons]
      rw [ih]
      by_cases hk : k ∈ rest
      · simp [hk, List.mem_cons]
      · by_cases hkk : k = k1
        · subst hkk
          simp [hk, dictGet_dictSet_self]
        · simp [hk, hkk, dictGet_dictSet_ne d k1 k (f k1) hkk]

/-! ## writeItems lemmas -/

lemma writeItems_spec {ρ α : Type} (readf : ρ → String → α) (rd : Option ρ)
    (d : List (String × Entry α)) :
    ∀ (ops : List (WriteOp α)) (d2 : List (String × Entry α)),
      writeItems readf rd d = some (ops, d2) →
      (∀ k, WriteOp.del k ∉ ops) ∧
      (∀ k v, (k, Entry.loaded v) ∈ d → WriteOp.put k v ∈ ops) ∧
      (∀ k r, rd = some r → (k, Entry.notLoaded) ∈ d → WriteOp.put k (readf r k) ∈ ops) ∧
      (∀ k, (k, Entry.notLoaded) ∈ d → ∃ r, rd = some r) := by
  induction d with
  | nil =>
      intro ops d2 h
      simp [writeItems] at h
      obtain ⟨rfl, rfl⟩ := h
      exact ⟨fun k => by simp, fun k v hkv => by simp at hkv,
        fun k r hr hkv => by simp at hkv, fun k hkv => by simp at hkv⟩
  | cons hd tl ih =>
      obtain ⟨k1, e1⟩ := hd
      intro ops d2 h
      cases e1 with
      | loaded v1 =>
          cases hw : writeItems readf rd tl with
          | none => simp [writeItems, hw] at h
          | some pr =>
              obtain ⟨ops1, d1⟩ := pr
              simp only [writeItems, hw, Option.some.injEq, Prod.mk.injEq] at h
              obtain ⟨rfl, rfl⟩ := h
              obtain ⟨ihd, ihl, ihn, ihr⟩ := ih ops1 d1 hw
              refine ⟨?_, ?_, ?_, ?_⟩
              · intro k hk
                rcases List.mem_cons.mp hk with h1 | h1
                · exact absurd h1 (by simp)
                · exact ihd k h1
              · intro k v hkv
                rcases List.mem_cons.mp hkv with h1 | h1
                · simp only [Prod.mk.injEq, Entry.loaded.injEq] at h1
                  obtain ⟨rfl, rfl⟩ := h1
                  exact List.mem_cons_self _ _
                · exact List.mem_cons_of_mem _ (ihl k v h1)
              · intro k r hr hkv
                rcases List.mem_cons.mp hkv with h1 | h1
                · simp at h1
                · exact List.mem_cons_of_mem _ (ihn k r hr h1)
              · intro k hkv
                rcases List.mem_cons.mp hkv with h1 | h1
                · simp at h1
                · exact ihr k h1
      | notLoaded =>
          cases rd with
          | none => simp [writeItems] at h
          | some r =>
              cases hw : writeItems readf (some r) tl with
              | none => simp [writeItems, hw] at h
              | some pr =>
                  obtain ⟨ops1, d1⟩ := pr
                  simp only [writeItems, hw, Option.some.injEq, Prod.mk.injEq] at h
                  obtain ⟨rfl, rfl⟩ := h
                  obtain ⟨ihd, ihl, ihn, ihr⟩ := ih ops1 d1 hw
                  refine ⟨?_, ?_, ?_, ?_⟩
                  · intro k hk
                    rcases List.mem_cons.mp hk with h1 | h1
                    · exact absurd h1 (by simp)
                    · exact ihd k h1
                  · intro k v hkv
                    rcases List.mem_cons.mp hkv with h1 | h1
                    · simp at h1
                    · exact List.mem_cons_of_mem _ (ihl k v h1)
                  · intro k r2 hr hkv
                    injection hr with hr2
                    subst hr2
                    rcases List.mem_cons.mp hkv with h1 | h1
                    · simp at h1
                      subst h1
                      exact List.mem_cons_self _ _
                    · exact List.mem_cons_of_mem _ (ihn k r rfl h1)
                  · intro k hkv
                    exact ⟨r, rfl⟩

lemma write_eq {ρ α : Type} (s : DataStore ρ α) (readf : ρ → String → α) (saveAs : Bool)
    (ops : List (WriteOp α)) (s2 : DataStore ρ α)
    (h : s.write readf saveAs = some (ops, s2)) :
    ∃ ops1 d1, writeItems readf s.reader s.data = some (ops1, d1) ∧
      ops = (if saveAs then [] else s.scheduledForDeletion.map WriteOp.del) ++ ops1 ∧
      s2 = { data := d1, scheduledForDeletion := [],
             reader := if saveAs then none else s.reader } := by
  unfold DataStore.write at h
  cases hwi : writeItems readf s.reader s.data with
  | none => rw [hwi] at h; exact absurd h (by simp)
  | some pr =>
      obtain ⟨ops1, d1⟩ := pr
      rw [hwi] at h
      simp only [Option.some.injEq, Prod.mk.injEq] at h
      exact ⟨ops1, d1, rfl, h.1.symm, h.2.symm⟩

lemma write_false_no_del {ρ α : Type} (s2 : DataStore ρ α)
    (hsched : s2.scheduledForDeletion = []) (readf2 : ρ → String → α)
    (ops2 : List (WriteOp α)) (s3 : DataStore ρ α)
    (h2 : s2.write readf2 false = some (ops2, s3)) :
    ∀ k, WriteOp.del k ∉ ops2 := by
  obtain ⟨ops3, d3, hwi2, hops, -⟩ := write_eq s2 readf2 false ops2 s3 h2
  obtain ⟨hnodel2, -, -, -⟩ := writeItems_spec readf2 s2.reader s2.data ops3 d3 hwi2
  intro k hmem
  rw [hops] at hmem
  simp only [hsched, List.map_nil, ite_self, List.nil_append] at hmem
  exact hnodel2 k hmem

/-! ## Consistency lemmas for the pending-deletion invariant -/

lemma consistent_setItem {ρ α : Type} (s : DataStore ρ α) (k : String) (v : α)
    (hC : Consistent s) : Consistent (s.setItem k v) := by
  intro k1 hk1
  simp only [DataStore.setItem, List.mem_filter] at hk1
  obtain ⟨hmem, hne⟩ := hk1
  have hne2 : k1 ≠ k := by simpa using hne
  simp only [DataStore.setItem]
  rw [dictGet_dictSet_ne _ _ _ _ hne2]
  exact hC k1 hmem

lemma consistent_delItem {ρ α : Type} (s : DataStore ρ α) (k : String)
    (s3 : DataStore ρ α) (hC : Consistent s) (h : s.delItem k = some s3) :
    Consistent s3 := by
  simp only [DataStore.delItem] at h
  cases hg : dictGet s.data k with
  | none => rw [hg] at h; simp at h
  | some e =>
      rw [hg] at h
      simp only [Option.some.injEq] at h
      subst h
      intro k1 hk1
      simp only [dictGet_dictDelete]
      by_cases hkk : k1 = k
      · simp [hkk]
      · simp only [hkk, if_false]
        simp only at hk1
        have hmem : k1 ∈ s.scheduledForDeletion := by
          by_cases hin : k ∈ s.scheduledForDeletion
          · simpa [hin] using hk1
          · rcases (by simpa [hin] using hk1 : k1 = k ∨ k1 ∈ s.scheduledForDeletion) with
              h1 | h1
            · exact absurd h1 hkk
            · exact h1
        exact hC k1 hmem

lemma consistent_applyOps {ρ α : Type} (ops : List (StoreOp α)) :
    ∀ (s s2 : DataStore ρ α), Consistent s → s.applyOps ops = some s2 → Consistent s2 := by
  induction ops with
  | nil =>
      intro s s2 hC h
      simp [DataStore.applyOps] at h
      exact h ▸ hC
  | cons op rest ih =>
      intro s s2 hC h
      cases hop : s.applyOp op with
      | none => simp [DataStore.applyOps, hop] at h
      | some s1 =>
          simp only [DataStore.applyOps, hop] at h
          have hC1 : Consistent s1 := by
            cases op with
            | setOp k v =>
                simp only [DataStore.applyOp, Option.some.injEq] at hop
                exact hop ▸ consistent_setItem s k v hC
            | delOp k =>
                simp only [DataStore.applyOp] at hop
                exact consistent_delItem s k s1 hC hop
          exact ih s1 s2 hC1 h

/-! ## Claim theorems: DataStore -/

/-- C2: setting a key stores its payload and clears its pending-deletion
flag, deleting a key removes it from the data mapping and marks it pending;
hence a freshly read store is consistent (no key both present and pending),
every sequence of set/delete operations preserves that consistency, and after
`delete(k)` followed by `set(k, v)` an in-place write never emits a `deletef`
call for `k` and does emit a `writef` call writing `v` for `k`. -/
theorem c2_pending_exclusion (ρ α : Type) :
    (∀ (listdir : ρ → List String) (readf : ρ → String → α) (r : ρ) (lazy : Bool),
        Consistent (DataStore.read listdir readf r lazy)) ∧
    (∀ (s : DataStore ρ α) (ops : List (StoreOp α)) (s2 : DataStore ρ α),
        Consistent s → s.applyOps ops = some s2 → Consistent s2) ∧
    (∀ (s : DataStore ρ α) (k : String) (v : α) (s3 : DataStore ρ α),
        s.delItem k = some s3 →
        ∀ (readf : ρ → String → α) (ops : List (WriteOp α)) (s4 : DataStore ρ α),
          (s3.setItem k v).write readf false = some (ops, s4) →
          WriteOp.del k ∉ ops ∧ WriteOp.put k v ∈ ops) := by
  refine ⟨?_, ?_, ?_⟩
  · intro listdir readf r lazy
    intro k hk
    simp [DataStore.read] at hk
  · intro s ops s2 hC h
    exact consistent_applyOps ops s s2 hC h
  · intro s k v s3 hdel readf ops s4 hw
    obtain ⟨ops1, d1, hwi, hops, -⟩ := write_eq (s3.setItem k v) readf false ops s4 hw
    obtain ⟨hnodel, hput, -, -⟩ :=
      writeItems_spec readf (s3.setItem k v).reader (s3.setItem k v).data ops1 d1 hwi
    constructor
    · intro hmem
      rw [hops] at hmem
      have hmem2 : k ∈ (s3.setItem k v).scheduledForDeletion ∨ WriteOp.del k ∈ ops1 := by
        simpa using hmem
      rcases hmem2 with h1 | h1
      · simp only [DataStore.setItem, List.mem_filter] at h1
        obtain ⟨-, hne⟩ := h1
        simp at hne
      · exact hnodel k h1
    · rw [hops]
      refine List.mem_append.mpr (Or.inr ?_)
      refine hput k v (dictGet_mem ?_)
      simp only [DataStore.setItem]
      exact dictGet_dictSet_self _ _ _

/-- C2 witness: on a concrete one-entry store, delete key `a`, set it to `2`,
and write in place — the emitted operations contain no deletion of `a` and do
write `2` for `a`; the consistency invariant also survives the concrete
operation sequence. -/
theorem c2_witness :
    (s2w.delItem "a" = some s2wDel ∧
      (s2wDel.setItem "a" 2).write readf0 false = some ([WriteOp.put "a" 2], s2wSet)) ∧
    (WriteOp.del "a" ∉ [WriteOp.put "a" 2] ∧ WriteOp.put "a" 2 ∈ [WriteOp.put "a" 2]) ∧
    (Consistent s2w ∧
      s2w.applyOps [StoreOp.delOp "a", StoreOp.setOp "a" 2] = some s2wSet ∧
      Consistent s2wSet) := by
  have h3 := (c2_pending_exclusion Unit Nat).2.2 s2w "a" 2 s2wDel (by decide) readf0
      [WriteOp.put "a" 2] s2wSet (by decide)
  have h2 := (c2_pending_exclusion Unit Nat).2.1 s2w
      [StoreOp.delOp "a", StoreOp.setOp "a" 2] s2wSet (by decide) (by decide)
  exact ⟨⟨by decide, by decide⟩, h3, by decide, by decide, h2⟩

/-- C3: a successful save-as write emits a `writef` call for every key of the
store (no untouched entry is dropped), pulls every still-unloaded entry
through the original reader (writing exactly `readf reader key`), and leaves
the store with its retained reader reference removed. -/
theorem c3_saveAs_pull_through (ρ α : Type) (readf : ρ → String → α)
    (s : DataStore ρ α) (ops : List (WriteOp α)) (s2 : DataStore ρ α)
    (h : s.write readf true = some (ops, s2)) :
    (∀ k, (dictGet s.data k).isSome → ∃ v, WriteOp.put k v ∈ ops) ∧
    (∀ r k, s.reader = some r → dictGet s.data k = some Entry.notLoaded →
        WriteOp.put k (readf r k) ∈ ops) ∧
    s2.reader = none := by
  obtain ⟨ops1, d1, hwi, hops, hs2⟩ := write_eq s readf true ops s2 h
  obtain ⟨-, hput, hpull, hrd⟩ := writeItems_spec readf s.reader s.data ops1 d1 hwi
  have hops2 : ops = ops1 := by simpa using hops
  subst hops2
  refine ⟨?_, ?_, by subst hs2; simp⟩
  · intro k hk
    cases hg : dictGet s.data k with
    | none => rw [hg] at hk; simp at hk
    | some e =>
        cases e with
        | loaded v => exact ⟨v, hput k v (dictGet_mem hg)⟩
        | notLoaded =>
            obtain ⟨r, hr⟩ := hrd k (dictGet_mem hg)
            exact ⟨readf r k, hpull k r hr (dictGet_mem hg)⟩
  · intro r k hr hg
    exact hpull k r hr (dictGet_mem hg)

/-- C3 witness: a concrete lazily read store with an untouched entry `a` and
a loaded entry `b`, written with `saveAs = true`: both keys are written, `a`
with the value pulled from the reader, and the resulting store has no
reader. -/
theorem c3_witness :
    s3w.write readf0 true = some ([WriteOp.put "a" 0, WriteOp.put "b" 5], s3wOut) ∧
    (∃ v, WriteOp.put "a" v ∈ [WriteOp.put "a" 0, WriteOp.put "b" 5]) ∧
    WriteOp.put "a" (readf0 () "a") ∈ [WriteOp.put "a" 0, WriteOp.put "b" 5] ∧
    s3wOut.reader = none := by
  have h := c3_saveAs_pull_through Unit Nat readf0 s3w
      [WriteOp.put "a" 0, WriteOp.put "b" 5] s3wOut (by decide)
  exact ⟨by decide, h.1 "a" (by decide), h.2.1 () "a" (by decide) (by decide), h.2.2⟩

/-- C9: a save-as write empties the pending-deletion set without ever
emitting a `deletef` call, and an immediately following in-place write of the
resulting store emits no `deletef` call either: deletions recorded before a
save-as are permanently discarded. -/
theorem c9_saveAs_discards_deletions (ρ α : Type) (readf : ρ → String → α)
    (s : DataStore ρ α) (ops : List (WriteOp α)) (s2 : DataStore ρ α)
    (h : s.write readf true = some (ops, s2)) :
    (∀ k, WriteOp.del k ∉ ops) ∧
    s2.scheduledForDeletion = [] ∧
    (∀ (readf2 : ρ → String → α) (ops2 : List (WriteOp α)) (s3 : DataStore ρ α),
        s2.write readf2 false = some (ops2, s3) → ∀ k, WriteOp.del k ∉ ops2) := by
  obtain ⟨ops1, d1, hwi, hops, hs2⟩ := write_eq s readf true ops s2 h
  obtain ⟨hnodel, -, -, -⟩ := writeItems_spec readf s.reader s.data ops1 d1 hwi
  have hops2 : ops = ops1 := by simpa using hops
  subst hops2
  have hsched : s2.scheduledForDeletion = [] := by subst hs2; simp
  refine ⟨hnodel, hsched, ?_⟩
  intro readf2 ops2 s3 h2 k
  exact write_false_no_del s2 hsched readf2 ops2 s3 h2 k

/-- C9 witness: a concrete store with pending deletion of `a`, written with
`saveAs = true`: no deletion is emitted, the pending set is empty afterwards,
and a subsequent in-place write emits no deletion either. -/
theorem c9_witness :
    s9w.write readf0 true = some ([WriteOp.put "b" 5], s9wOut) ∧
    WriteOp.del "a" ∉ [WriteOp.put "b" 5] ∧
    s9wOut.scheduledForDeletion = [] ∧
    (s9wOut.write readf0 false = some ([WriteOp.put "b" 5], s9wOut) ∧
      WriteOp.del "a" ∉ [WriteOp.put "b" 5]) := by
  have h := c9_saveAs_discards_deletions Unit Nat readf0 s9w
      [WriteOp.put "b" 5] s9wOut (by decide)
  exact ⟨by decide, h.1 "a", h.2.1,
    by decide, h.2.2 readf0 [WriteOp.put "b" 5] s9wOut (by decide) "a"⟩

/-! ## Lazy materialization: C4 -/

lemma dictGet_read {ρ α : Type} (listdir : ρ → List String) (readf : ρ → String → α)
    (r : ρ) (lazy : Bool) (k : String) (hk : k ∈ listdir r) :
    dictGet (DataStore.read listdir readf r lazy).data k =
      some (if lazy then Entry.notLoaded else Entry.loaded (readf r k)) := by
  simp only [DataStore.read]
  rw [dictGet_foldl_dictSet
    (fun k1 => if lazy then Entry.notLoaded else Entry.loaded (readf r k1))]
  simp [hk]

/-- C4: for every key enumerated from the backing container, a store read
with `lazy = true` yields on access the same payload as a store read with
`lazy = false`, the external `readf` being invoked exactly once per key in
either mode: the eager read calls it once during population and never on
access, while the lazy read calls it on the first access only, caches the
result, and the second access touches neither the reader nor the store. -/
theorem c4_lazy_equivalence (ρ α : Type) (listdir : ρ → List String)
    (readf : ρ → String → α) (r : ρ) (k : String)
    (hk : k ∈ listdir r) (hnd : (listdir r).Nodup) :
    (readTrace listdir r true).count k = 0 ∧
    (readTrace listdir r false).count k = 1 ∧
    (DataStore.read listdir readf r false).getItem readf k =
      some (readf r k, DataStore.read listdir readf r false, []) ∧
    (∃ s2 : DataStore ρ α,
      (DataStore.read listdir readf r true).getItem readf k =
        some (readf r k, s2, [k]) ∧
      s2.getItem readf k = some (readf r k, s2, [])) := by
  refine ⟨?_, ?_, ?_, ?_⟩
  · simp [readTrace]
  · simp only [readTrace, if_neg]
    exact List.count_eq_one_of_mem hnd hk
  · have hg := dictGet_read listdir readf r false k hk
    simp only [Bool.false_eq_true, if_false] at hg
    simp [DataStore.getItem, hg]
  · have hg := dictGet_read listdir readf r true k hk
    simp only [if_pos] at hg
    have hreader : (DataStore.read listdir readf r true).reader = some r := by
      simp [DataStore.read]
    refine ⟨{ DataStore.read listdir readf r true with
      data := dictSet (DataStore.read listdir readf r true).data k
        (Entry.loaded (readf r k)) }, ?_, ?_⟩
    · simp [DataStore.getItem, hg, hreader]
    · simp [DataStore.getItem, dictGet_dictSet_self]

/-- C4 witness: a concrete two-key container; key `a` read lazily then
accessed gives the same payload as read eagerly, and the eager read trace
mentions `a` exactly once. -/
theorem c4_witness :
    "a" ∈ listdir0 () ∧ (listdir0 ()).Nodup ∧
    (readTrace listdir0 () true).count "a" = 0 ∧
    (readTrace listdir0 () false).count "a" = 1 ∧
    (DataStore.read listdir0 readf1 () false).getItem readf1 "a" =
      some (readf1 () "a", DataStore.read listdir0 readf1 () false, []) := by
  have h := c4_lazy_equivalence Unit Nat listdir0 readf1 () "a" (by decide) (by decide)
  exact ⟨by decide, by decide, h.1, h.2.1, h.2.2.1⟩

/-! ## Geometry lemmas for the margin claims -/

lemma expandBounds_shift {R : Type} [LinearOrderedCommRing R] (dx dy : R)
    (bb : BoundingBox R) (p : GPoint R) :
    expandBounds (shiftBB dx dy bb) (shiftP dx dy p) =
      shiftBB dx dy (expandBounds bb p) := by
  simp [expandBounds, shiftBB, shiftP, min_add_add_right, max_add_add_right]

lemma foldl_expandBounds_shift {R : Type} [LinearOrderedCommRing R] (dx dy : R) :
    ∀ (ps : List (GPoint R)) (bb : BoundingBox R),
      (ps.map (shiftP dx dy)).foldl expandBounds (shiftBB dx dy bb) =
        shiftBB dx dy (ps.foldl expandBounds bb) := by
  intro ps
  induction ps with
  | nil => intro bb; simp
  | cons p rest ih =>
      intro bb
      simp only [List.map_cons, List.foldl_cons, expandBounds_shift]
      exact ih _

lemma contoursPoints_move {R : Type} [LinearOrderedCommRing R] (dx dy : R) :
    ∀ cs : List (Contour R),
      ((cs.map (fun c => c.move dx dy)).foldr (fun c acc => c.points ++ acc) []) =
        ((cs.foldr (fun c acc => c.points ++ acc) []).map (shiftP dx dy)) := by
  intro cs
  have hfun : (shiftP dx dy : GPoint R → GPoint R) =
      fun p => { x := p.x + dx, y := p.y + dy } := by
    funext p; rfl
  induction cs with
  | nil => simp
  | cons c rest ih =>
      simp only [List.map_cons, List.foldr_cons, List.map_append]
      rw [ih]
      simp [Contour.move, hfun]

lemma allPoints_move {R : Type} [LinearOrderedCommRing R] (g : Glyph R) (dx dy : R) :
    (g.move dx dy).allPoints = g.allPoints.map (shiftP dx dy) := by
  simp only [Glyph.move, Glyph.allPoints]
  exact contoursPoints_move dx dy g.contours

lemma getBounds_move {R : Type} [LinearOrderedCommRing R] (g : Glyph R) (dx dy : R) :
    (g.move dx dy).getBounds = g.getBounds.map (shiftBB dx dy) := by
  unfold Glyph.getBounds
  rw [allPoints_move]
  cases hap : g.allPoints with
  | nil => simp
  | cons p ps =>
      simp only [List.map_cons]
      have hinit : BoundingBox.mk (shiftP dx dy p).x (shiftP dx dy p).y
          (shiftP dx dy p).x (shiftP dx dy p).y =
          shiftBB dx dy (BoundingBox.mk p.x p.y p.x p.y) := by
        simp [shiftP, shiftBB]
      rw [hinit, foldl_expandBounds_shift]
      simp

/-! ## Claim theorems: Glyph -/

/-- C5: the `unicode` getter returns the first element of `unicodes` (or
`none` on an empty list); setting `none` clears the list; setting a value on
a nonempty list is a no-op when the value is already first, and otherwise
removes the existing occurrence of the value and inserts it at the front; on
an empty list the value is appended — in particular `[3, 5, 7]` with
`unicode = 5` becomes `[5, 3, 7]`, and `unicode = None` yields `[]`. -/
theorem c5_unicode_primacy (R : Type) :
    (∀ (g : Glyph R) (u : Int) (rest : List Int),
        (g.unicodes = [] → g.unicode = none) ∧
        (g.unicodes = u :: rest → g.unicode = some u)) ∧
    (∀ g : Glyph R, (g.setUnicode none).unicodes = []) ∧
    (∀ (g : Glyph R) (v : Int), g.unicodes.head? = some v → g.setUnicode (some v) = g) ∧
    (∀ (g : Glyph R) (v : Int), g.unicodes ≠ [] → g.unicodes.head? ≠ some v →
        (g.setUnicode (some v)).unicodes = v :: g.unicodes.erase v) ∧
    (∀ (g : Glyph R) (v : Int), g.unicodes = [] →
        (g.setUnicode (some v)).unicodes = [v]) ∧
    (g357.setUnicode (some 5)).unicodes = [5, 3, 7] ∧
    (g357.setUnicode none).unicodes = [] := by
  refine ⟨?_, ?_, ?_, ?_, ?_, by decide, by decide⟩
  · intro g u rest
    constructor
    · intro hu; simp [Glyph.unicode, hu]
    · intro hu; simp [Glyph.unicode, hu]
  · intro g; simp [Glyph.setUnicode]
  · intro g v hv
    cases hu : g.unicodes with
    | nil => rw [hu] at hv; simp at hv
    | cons u rest =>
        rw [hu] at hv
        simp only [List.head?_cons, Option.some.injEq] at hv
        simp [Glyph.setUnicode, hu, hv]
  · intro g v hne hv
    cases hu : g.unicodes with
    | nil => exact absurd hu hne
    | cons u rest =>
        rw [hu] at hv
        simp only [List.head?_cons, ne_eq, Option.some.injEq] at hv
        simp [Glyph.setUnicode, hu, hv]
  · intro g v hu
    simp [Glyph.setUnicode, hu]

/-- C5 witness: the general removal-and-prepend clause of the theorem applied
to the concrete glyph with unicodes `[3, 5, 7]` and value `5`. -/
theorem c5_witness :
    g357.unicodes ≠ [] ∧ g357.unicodes.head? ≠ some 5 ∧
    (g357.setUnicode (some 5)).unicodes = 5 :: g357.unicodes.erase 5 ∧
    (g357.setUnicode (some 5)).unicodes = [5, 3, 7] := by
  have h := (c5_unicode_primacy Int).2.2.2.1 g357 5 (by decide) (by decide)
  exact ⟨by decide, by decide, h, by decide⟩

/-- C6 counterexample: the concrete contour-only glyph `g0` satisfies the
claim's premises (bounds `xMin = 10`, `xMax = 90`, width `100`), and after
`setLeftMargin 20` its `getRightMargin` is `10`, not the claimed `20`: the
margin change also moves the outline, so `xMax` becomes `100`. -/
theorem c6_counterexample :
    g0.getBounds = some bb0 ∧ bb0.xMin = 10 ∧ bb0.xMax = 90 ∧ g0.width = 100 ∧
    (g0.setLeftMargin 20).getRightMargin = some 10 ∧
    (g0.setLeftMargin 20).getRightMargin ≠ some 20 := by decide

/-- C6 (amended): for a glyph with bounds `xMin = 10, xMax = 90` and width
`100`, `setLeftMargin 20` yields width `110` and bounds shifted by `(10, 0)`
— so `xMin = 20` and `xMax = 100` — and a subsequent `getRightMargin` equals
`110 - 100 = 10` (the right margin is preserved, not the claimed `20`). -/
theorem c6_margin_roundTrip (R : Type) [LinearOrderedCommRing R] (g : Glyph R)
    (bb : BoundingBox R) (hb : g.getBounds = some bb) (h1 : bb.xMin = 10)
    (h2 : bb.xMax = 90) (hw : g.width = 100) :
    (g.setLeftMargin 20).width = 110 ∧
    (g.setLeftMargin 20).getBounds = some (shiftBB 10 0 bb) ∧
    (shiftBB (10 : R) 0 bb).xMin = 20 ∧ (shiftBB (10 : R) 0 bb).xMax = 100 ∧
    (g.setLeftMargin 20).getRightMargin = some 10 := by
  have hdiff : (20 : R) - bb.xMin = 10 := by rw [h1]; norm_num
  have hne : (20 : R) - bb.xMin ≠ 0 := by rw [hdiff]; norm_num
  have hset : g.setLeftMargin 20 =
      { g.move ((20 : R) - bb.xMin) 0 with width := g.width + ((20 : R) - bb.xMin) } := by
    simp [Glyph.setLeftMargin, hb, hne]
  have hwidth : (g.setLeftMargin 20).width = 110 := by
    rw [hset]
    show g.width + ((20 : R) - bb.xMin) = 110
    rw [hw, hdiff]; norm_num
  have hgb : (g.setLeftMargin 20).getBounds = some (shiftBB (10 : R) 0 bb) := by
    rw [hset]
    show (g.move ((20 : R) - bb.xMin) 0).getBounds = some (shiftBB (10 : R) 0 bb)
    rw [getBounds_move, hb, hdiff]
    rfl
  have hxmin : (shiftBB (10 : R) 0 bb).xMin = 20 := by
    simp only [shiftBB, h1]; norm_num
  have hxmax : (shiftBB (10 : R) 0 bb).xMax = 100 := by
    simp only [shiftBB, h2]; norm_num
  refine ⟨hwidth, hgb, hxmin, hxmax, ?_⟩
  have h110 : (110 : R) - 100 = 10 := by norm_num
  simp only [Glyph.getRightMargin, hgb, hwidth, hxmax, h110]

/-- C6 witness: the amended margin theorem applied to the concrete glyph
`g0`. -/
theorem c6_witness :
    (g0.getBounds = some bb0 ∧ bb0.xMin = 10 ∧ bb0.xMax = 90 ∧ g0.width = 100) ∧
    (g0.setLeftMargin 20).width = 110 ∧
    (g0.setLeftMargin 20).getRightMargin = some 10 := by
  have h := c6_margin_roundTrip Int g0 bb0 (by decide) (by decide) (by decide) (by decide)
  exact ⟨⟨by decide, by decide, by decide, by decide⟩, h.1, h.2.2.2.2⟩

/-! ## Claim theorems: Font.write and Font.save -/

/-- C7: when the default layer's name differs from the reserved default-layer
name and some other layer bears the reserved name, `Font.write` fails with
the assertion error (before anything is written). -/
theorem c7_default_layer_exclusive (f : Font)
    (hdef : f.layers.defaultLayer.name ≠ DEFAULT_LAYER_NAME)
    (hother : ∃ l, l ∈ f.layers.layers ∧ l.name = DEFAULT_LAYER_NAME) :
    f.write = Except.error PyErr.assertionError := by
  obtain ⟨l, hl, hn⟩ := hother
  have hmem : DEFAULT_LAYER_NAME ∈ f.layers.layerOrder := by
    unfold LayerSet.layerOrder
    exact List.mem_map.mpr ⟨l, hl, hn⟩
  simp [Font.write, hdef, hmem]

/-- C7 witness: a concrete font whose default layer is `foreground` while a
second layer is named with the reserved default-layer name fails on write. -/
theorem c7_witness :
    f7.layers.defaultLayer.name ≠ DEFAULT_LAYER_NAME ∧
    (∃ l, l ∈ f7.layers.layers ∧ l.name = DEFAULT_LAYER_NAME) ∧
    f7.write = Except.error PyErr.assertionError := by
  refine ⟨by decide, ⟨{ name := DEFAULT_LAYER_NAME }, by decide, rfl⟩, ?_⟩
  exact c7_default_layer_exclusive f7 (by decide)
    ⟨{ name := DEFAULT_LAYER_NAME }, by decide, rfl⟩

/-- C8: for every `formatVersion` other than `3`, `Font.save` fails with the
unsupported-format-version error immediately: no I/O happens, no staging
directory is created, and both the filesystem and the font are unchanged. -/
theorem c8_unsupported_format (β E : Type) (f : Font) (disk : String → Option β)
    (writeStep : Except (E × Option β) β) (path0 : Option String) (overwrite : Bool)
    (v : Int) (hv : v ≠ 3) :
    (f.save disk writeStep path0 v overwrite).result =
      Except.error SaveErr.notImplementedErr ∧
    (f.save disk writeStep path0 v overwrite).disk = disk ∧
    (f.save disk writeStep path0 v overwrite).font = f ∧
    (f.save disk writeStep path0 v overwrite).ioHappened = false ∧
    (f.save disk writeStep path0 v overwrite).tmpCreated = false := by
  refine ⟨?_, ?_, ?_, ?_, ?_⟩ <;> simp [Font.save, hv]

/-- C8 witness: saving with `formatVersion = 2` over a concrete filesystem
reports the unsupported version with no I/O and no state change. -/
theorem c8_witness :
    (2 : Int) ≠ 3 ∧
    (f0.save disk0 failStep (some "x.ufo") 2 true).result =
      Except.error SaveErr.notImplementedErr ∧
    (f0.save disk0 failStep (some "x.ufo") 2 true).ioHappened = false ∧
    (f0.save disk0 failStep (some "x.ufo") 2 true).font = f0 := by
  have h := c8_unsupported_format Nat Unit f0 disk0 failStep (some "x.ufo") true 2
    (by decide)
  exact ⟨by decide, h.1, h.2.2.2.1, h.2.2.1⟩

/-- C1: saving with `overwrite = true` over an existing destination stages
the write into a freshly created temporary directory (the writer is bound to
the staged path, never the destination); on a write failure the error
propagates and the filesystem — in particular the pre-existing destination
entry — is byte-identical to before; only a fully successful write replaces
the destination; and the temporary directory is gone on every exit. -/
theorem c1_atomic_overwrite (β E : Type) (f : Font) (disk : String → Option β)
    (writeStep : Except (E × Option β) β) (p : String) (old : β)
    (hexists : disk p = some old) :
    (f.save disk writeStep (some p) 3 true).wroteStaged = true ∧
    (f.save disk writeStep (some p) 3 true).tmpCreated = true ∧
    (f.save disk writeStep (some p) 3 true).tmpLive = false ∧
    (∀ e junk, writeStep = Except.error (e, junk) →
        (f.save disk writeStep (some p) 3 true).result =
          Except.error (SaveErr.writeFailed e) ∧
        (f.save disk writeStep (some p) 3 true).disk = disk ∧
        (f.save disk writeStep (some p) 3 true).disk p = some old) ∧
    (∀ c, writeStep = Except.ok c →
        (f.save disk writeStep (some p) 3 true).result = Except.ok () ∧
        (f.save disk writeStep (some p) 3 true).disk p = some c) := by
  have hs : (disk p).isSome = true := by rw [hexists]; rfl
  cases writeStep with
  | error ej =>
      obtain ⟨e, junk⟩ := ej
      refine ⟨by simp [Font.save, hs], by simp [Font.save, hs],
        by simp [Font.save, hs], ?_, ?_⟩
      · intro e2 junk2 heq
        injection heq with h4
        injection h4 with h5 h6
        subst h5
        subst h6
        exact ⟨by simp [Font.save, hs], by simp [Font.save, hs], by
          simp [Font.save, hs, hexists]⟩
      · intro c heq
        exact absurd heq (by simp)
  | ok c =>
      refine ⟨by simp [Font.save, hs], by simp [Font.save, hs],
        by simp [Font.save, hs], ?_, ?_⟩
      · intro e2 junk2 heq
        exact absurd heq (by simp)
      · intro c2 heq
        injection heq with h4
        subst h4
        exact ⟨by simp [Font.save, hs], by simp [Font.save, hs, updateDisk]⟩

/-- C1 witness: a failing overwrite-save onto a concrete one-entry
filesystem leaves the destination entry intact and the temporary directory
removed. -/
theorem c1_witness :
    disk0 "x.ufo" = some 7 ∧
    (f0.save disk0 failStep (some "x.ufo") 3 true).wroteStaged = true ∧
    (f0.save disk0 failStep (some "x.ufo") 3 true).tmpCreated = true ∧
    (f0.save disk0 failStep (some "x.ufo") 3 true).tmpLive = false ∧
    (f0.save disk0 failStep (some "x.ufo") 3 true).result =
      Except.error (SaveErr.writeFailed ()) ∧
    (f0.save disk0 failStep (some "x.ufo") 3 true).disk "x.ufo" = some 7 := by
  have h := c1_atomic_overwrite Nat Unit f0 disk0 failStep "x.ufo" 7 (by decide)
  exact ⟨by decide, h.1, h.2.1, h.2.2.1, (h.2.2.2.1 () none rfl).1,
    (h.2.2.2.1 () none rfl).2.2⟩

/-! ## Claim theorem: DeepComponent.drawPoints -/

/-- C10: `drawPoints` first calls the pen's `addDeepComponent` passing the
`identifier` keyword argument; when the pen does not accept that keyword the
call raises TypeError, and `drawPoints` retries without the identifier and
issues a UserWarning — so the identifier is discarded and no TypeError
reaches the caller, whose result is a success in every case. -/
theorem c10_identifier_fallback (τ κ : Type) (dc : DeepComponent τ κ) (pen : PointPen) :
    pen.addDeepComponentCall dc.baseGlyph dc.transformation dc.coord
        (some dc.identifier) =
      (if pen.acceptsIdentifierKwarg then
        Except.ok [PenEvent.addDeepComponent dc.baseGlyph dc.transformation dc.coord
          (some dc.identifier)]
      else Except.error PyErr.typeError) ∧
    dc.drawPoints pen =
      (if pen.acceptsIdentifierKwarg then
        Except.ok [PenEvent.addDeepComponent dc.baseGlyph dc.transformation dc.coord
          (some dc.identifier)]
      else
        Except.ok [PenEvent.addDeepComponent dc.baseGlyph dc.transformation dc.coord none,
          PenEvent.userWarning]) ∧
    (∃ evs, dc.drawPoints pen = Except.ok evs) := by
  obtain ⟨b⟩ := pen
  cases b <;>
    simp [DeepComponent.drawPoints, PointPen.addDeepComponentCall]

end UfoLib2
